import Mathlib

/-!
Verification of the Willow image façade (`willow/image.py`).

The file shallowly embeds the data model and operations of `willow/image.py`:
image handle classes, format sniffing and initial-class selection in
`Image.open`, the save dispatcher `Image.save`, the dynamic dispatch of
`Image.__getattr__`, and the buffer/file representation classes.  The
capability registry (`willow/registry.py`) is not part of the sources at
hand, so its `find_operation` resolver is modelled from the specification's
description of the path resolver (Dijkstra-style cheapest path over the
converter graph) and verified against the spec's optimality and determinism
properties.
-/

namespace Willow

/-! ## Byte sources and format sniffing -/

/-- A byte source is modelled as the list of its byte values
(`io.BytesIO` contents in the Python tests). -/
abbrev ByteSource := List Nat

/-- Signature test: `hasPre sig bs` holds when the byte source `bs` begins with the
signature `sig` (Python: the leading byte window matches the magic bytes). -/
def hasPre : List Nat → List Nat → Bool
  | [], _ => true
  | _ :: _, [] => false
  | s :: sig, b :: bs => s == b && hasPre sig bs

/-- The magic signature of a PNG file: `\x89PNG\x0d\x0a\x1a\x0a`. -/
def pngSignature : List Nat := [0x89, 0x50, 0x4E, 0x47, 0x0D, 0x0A, 0x1A, 0x0A]

/-- The magic signature of a JFIF JPEG file: `\xff\xd8\xff\xe0\x00\x10JFIF\x00`. -/
def jpegSignature : List Nat := [0xFF, 0xD8, 0xFF, 0xE0, 0x00, 0x10, 0x4A, 0x46, 0x49, 0x46, 0x00]

/-- The magic signature of a GIF file: `GIF89a`. -/
def gifSignature : List Nat := [0x47, 0x49, 0x46, 0x38, 0x39, 0x61]

/-- The bytes of the ASCII string `"Not an image"`, the spec's example of
a byte source matching no known signature. -/
def notAnImage : List Nat :=
  [0x4E, 0x6F, 0x74, 0x20, 0x61, 0x6E, 0x20, 0x69, 0x6D, 0x61, 0x67, 0x65]

/-- Modelled from the spec: the byte-signature detector
`sniff(bytes) → format_tag | none` (`filetype.guess_extension` in the code,
an external collaborator whose source is not in the repository).  It checks
the leading byte window against the table of known magic signatures and
returns the detected extension tag, or `none` when nothing matches.  The
repository's own test `TestImghdrJPEGPatch` pins the JPEG tag to `"jpg"`. -/
def guess_extension (f : ByteSource) : Option String :=
  if hasPre pngSignature f then some "png"
  else if hasPre jpegSignature f then some "jpg"
  else if hasPre gifSignature f then some "gif"
  else none

/-! ## Image handle classes -/

/-- The concrete `ImageFile` subclasses of `willow/image.py`
(`JPEGImageFile`, `PNGImageFile`, `GIFImageFile`, `BMPImageFile`,
`TIFFImageFile`, `WebPImageFile`), plus the abstract base `ImageFile`
itself, as a closed set of class tags. -/
inductive ImageFileClass where
  | ImageFile
  | JPEGImageFile
  | PNGImageFile
  | GIFImageFile
  | BMPImageFile
  | TIFFImageFile
  | WebPImageFile
  deriving DecidableEq, Repr

/-- The `format_name` class attribute: `None` on the base `ImageFile`,
a format string on each concrete subclass. -/
def ImageFileClass.format_name : ImageFileClass → Option String
  | .ImageFile => none
  | .JPEGImageFile => some "jpeg"
  | .PNGImageFile => some "png"
  | .GIFImageFile => some "gif"
  | .BMPImageFile => some "bmp"
  | .TIFFImageFile => some "tiff"
  | .WebPImageFile => some "webp"

/-- An `ImageFile` instance: `ImageFile.__init__(self, f)` stores the byte
source in `self.f`; the class tag records which subclass the instance is. -/
structure ImageFile where
  cls : ImageFileClass
  f : ByteSource
  deriving DecidableEq, Repr

/-- The `format_name` attribute read on an instance resolves to the class
attribute of the instance's class. -/
def ImageFile.format_name (self : ImageFile) : Option String :=
  self.cls.format_name

/-- The deprecated `original_format` property: it emits a
`RemovedInWillow05Warning` and returns `self.format_name`.  The embedding
returns the value together with the list of warning messages emitted. -/
def ImageFile.original_format (self : ImageFile) : Option String × List String :=
  (self.format_name,
   ["Image.original_format has been renamed to Image.format_name."])

/-! ## `Image.open`: sniffing and initial class selection -/

/-- The error `UnrecognisedImageFormatError`: raised by `Image.open` either with
`"Cannot load %s images"` (format recognised but unmapped, non-null tag) or
with `"Unknown image format"` (signature not recognised). -/
inductive UnrecognisedImageFormatError where
  | cannotLoad (image_format : String)
  | unknownFormat
  deriving DecidableEq, Repr

/-- Modelled from the spec: the keys of `INITIAL_IMAGE_CLASSES` are the
extension tags of the external `filetype.types.image` matchers
(`image_types.Jpeg().extension` etc., whose source is not in the
repository); the repository's own test pins the JPEG tag to `"jpg"`.  The
values are the initial classes written in `willow/image.py`. -/
def INITIAL_IMAGE_CLASSES : List (String × ImageFileClass) :=
  [("jpg", .JPEGImageFile),
   ("png", .PNGImageFile),
   ("gif", .GIFImageFile),
   ("bmp", .BMPImageFile),
   ("tif", .TIFFImageFile),
   ("webp", .WebPImageFile)]

/-- Dictionary lookup `INITIAL_IMAGE_CLASSES.get(image_format)`. -/
def lookupClass (table : List (String × ImageFileClass)) (key : String) :
    Option ImageFileClass :=
  (table.find? (fun kv => kv.1 == key)).map (·.2)

/-- The classmethod `Image.open(f)`, parametrised by the byte-signature detector `guess`
(the code calls the external `filetype.guess_extension`): detect the image
format, look up the initial class, raise `UnrecognisedImageFormatError`
when the class is missing (with the recognised-but-unmapped message when
the format tag is non-null), and otherwise construct the initial class on
the byte source. -/
def Image.open (guess : ByteSource → Option String) (f : ByteSource) :
    Except UnrecognisedImageFormatError ImageFile :=
  let image_format := guess f
  let initial_class := image_format.bind (lookupClass INITIAL_IMAGE_CLASSES)
  match initial_class with
  | none =>
    match image_format with
    | some fmt => .error (.cannotLoad fmt)
    | none => .error .unknownFormat
  | some cls => .ok ⟨cls, f⟩

/-! ## Dispatch façade: `Image.__getattr__` and `Image.save`

`Image.__getattr__` asks the registry for
`(operation, _, conversion_path, _) = registry.find_operation(type(self), attr)`
and returns a wrapper that walks the conversion path and applies the
operation.  The resolver lives in `willow/registry.py`; the dispatch here is
parametrised by its result.  Converters and operations carry numeric
identifiers so that the embedding can record, as a trace, which converters
ran (in order) and which operation implementations were invoked with which
arguments. -/

/-- The result of a successful `registry.find_operation(type(self), attr)`
call, as consumed by `Image.__getattr__`: the operation implementation
(with an identifier for tracing), and the conversion path — a list of
`(converter, cost)` pairs, each converter being an identified function from
handles to handles. -/
structure Resolution (H A R : Type) where
  opId : Nat
  operation : H → A → R
  conversion_path : List ((Nat × (H → H)) × Option Nat)

/-- Errors raised by the dispatch façade: `AttributeError` from
`__getattr__` (carrying the class name and attribute name of the Python
message) and `ValueError` from `save`. -/
inductive DispatchError where
  | attributeError (clsName attr : String)
  | valueError (msg : String)
  deriving DecidableEq, Repr

/-- The loop of the `__getattr__` wrapper:
`for converter, _ in conversion_path: image = converter(image)`.
Returns the final handle together with the trace of converter identifiers
in execution order. -/
def run_conversion_path {H : Type} (conversion_path : List ((Nat × (H → H)) × Option Nat))
    (image : H) : H × List Nat :=
  match conversion_path with
  | [] => (image, [])
  | (converter, _) :: rest =>
    let next := run_conversion_path rest (converter.2 image)
    (next.1, converter.1 :: next.2)

/-- A capability request `self.attr(args)` going through
`Image.__getattr__`: when `registry.find_operation` raises `LookupError`
(`find_result = none`), re-raise as `AttributeError` — with empty traces,
since the wrapper is never built, no converter runs and no operation is
invoked.  When resolution succeeds, run the conversion path on `self`,
apply the operation to the final handle and the caller's arguments, and
return its result unmodified; the traces record the converters run (in
order) and the single operation invocation with its argument. -/
def getattrInvoke {H A R : Type} (find_result : Option (Resolution H A R))
    (clsName attr : String) (self : H) (args : A) :
    Except DispatchError R × List Nat × List (Nat × A) :=
  match find_result with
  | none => (.error (.attributeError clsName attr), [], [])
  | some res =>
    let st := run_conversion_path res.conversion_path self
    (.ok (res.operation st.1 args), st.2, [(res.opId, args)])

/-- The closed set of output formats accepted by `Image.save`. -/
def supported_save_formats : List String :=
  ["jpeg", "png", "gif", "bmp", "tiff", "webp"]

/-- The method `Image.save(image_format, output)`: reject an unknown format name with
`ValueError` before any dispatch (empty traces: no capability is invoked),
otherwise synthesise `operation_name = "save_as_" + image_format` and
invoke that capability on the handle with `output` as its sole argument,
through the same `__getattr__` dispatch as any other request. -/
def Image.save {H A R : Type} (find : String → Option (Resolution H A R))
    (clsName : String) (self : H) (image_format : String) (output : A) :
    Except DispatchError R × List Nat × List (Nat × A) :=
  if image_format ∉ supported_save_formats then
    (.error (.valueError ("Unknown image format: " ++ image_format)), [], [])
  else
    getattrInvoke (find ("save_as_" ++ image_format))
      clsName ("save_as_" ++ image_format) self output

/-! ## Buffer representation classes

`ImageBuffer.__init__` stores `size` and `data`; its registered operations
(`get_size`, and `has_alpha`/`has_animation` on the RGB/RGBA subclasses)
contain no assignment to `self`, so each is embedded as a state-passing
function returning its result together with the post-state of the handle. -/

/-- The class `ImageBuffer(size, data)`. -/
structure ImageBuffer where
  size : Nat × Nat
  data : List Nat
  deriving DecidableEq, Repr

/-- The operation `ImageBuffer.get_size`: `return self.size`. -/
def ImageBuffer.get_size (self : ImageBuffer) : (Nat × Nat) × ImageBuffer :=
  (self.size, self)

/-- The class `RGBImageBuffer(size, data)` (class attribute `mode = 'RGB'`). -/
structure RGBImageBuffer where
  size : Nat × Nat
  data : List Nat
  deriving DecidableEq, Repr

/-- The `mode` class attribute of `RGBImageBuffer`. -/
def RGBImageBuffer.mode : String := "RGB"

/-- The operation `get_size` inherited by `RGBImageBuffer` from `ImageBuffer`. -/
def RGBImageBuffer.get_size (self : RGBImageBuffer) : (Nat × Nat) × RGBImageBuffer :=
  (self.size, self)

/-- The operation `RGBImageBuffer.has_alpha`: `return False`. -/
def RGBImageBuffer.has_alpha (self : RGBImageBuffer) : Bool × RGBImageBuffer :=
  (false, self)

/-- The operation `RGBImageBuffer.has_animation`: `return False`. -/
def RGBImageBuffer.has_animation (self : RGBImageBuffer) : Bool × RGBImageBuffer :=
  (false, self)

/-- The class `RGBAImageBuffer(size, data)` (class attribute `mode = 'RGBA'`). -/
structure RGBAImageBuffer where
  size : Nat × Nat
  data : List Nat
  deriving DecidableEq, Repr

/-- The `mode` class attribute of `RGBAImageBuffer`. -/
def RGBAImageBuffer.mode : String := "RGBA"

/-- The operation `get_size` inherited by `RGBAImageBuffer` from `ImageBuffer`. -/
def RGBAImageBuffer.get_size (self : RGBAImageBuffer) : (Nat × Nat) × RGBAImageBuffer :=
  (self.size, self)

/-- The operation `RGBAImageBuffer.has_alpha`: `return True`. -/
def RGBAImageBuffer.has_alpha (self : RGBAImageBuffer) : Bool × RGBAImageBuffer :=
  (true, self)

/-- The operation `RGBAImageBuffer.has_animation`: `return False`. -/
def RGBAImageBuffer.has_animation (self : RGBAImageBuffer) : Bool × RGBAImageBuffer :=
  (false, self)

/-! ## The capability registry and path resolver

`willow/registry.py` is not among the sources at hand (only its caller
`Image.__getattr__` and the decorator declarations are), so the resolver is
modelled from the specification: a registry of node types with registered
operations and directed, costed converter edges, and a `find_operation`
query returning the lowest-total-cost conversion path from a node type to
some type implementing the requested operation. -/

/-- Modelled from the spec: a registered converter edge — a directed,
costed edge between node types (node types are numeric tags, `id`
distinguishes different registered converters between the same pair). -/
structure Converter where
  id : Nat
  src : Nat
  dst : Nat
  cost : Nat
  deriving DecidableEq, Repr

/-- Modelled from the spec: the capability registry owns the operation
registrations — `(node type, operation name)` pairs — and the converter
edge set. -/
structure Registry where
  operations : List (Nat × String)
  converters : List Converter
  deriving DecidableEq, Repr

/-- A conversion chain: `isChain cs t q e` holds when `q` is a sequence of
registered converters (each drawn from `cs`) whose first edge starts at
`t`, with each edge starting where the previous one ended, ending at `e`.
This is the claim-side notion of "a combination of registered converters
reaching a type". -/
def isChain (cs : List Converter) : Nat → List Converter → Nat → Prop
  | t, [], e => t = e
  | t, c :: q, e => c ∈ cs ∧ c.src = t ∧ isChain cs c.dst q e

instance isChainDecidable (cs : List Converter) :
    ∀ t q e, Decidable (isChain cs t q e)
  | t, [], e => inferInstanceAs (Decidable (t = e))
  | t, c :: q, e =>
    have : Decidable (isChain cs c.dst q e) := isChainDecidable cs c.dst q e
    inferInstanceAs (Decidable (c ∈ cs ∧ c.src = t ∧ isChain cs c.dst q e))

/-- The total cost of a conversion path: the sum of its edge costs. -/
def pathCost (q : List Converter) : Nat :=
  (q.map (·.cost)).sum

/-- Modelled from the spec (part of the path resolver): enumerate, in
converter-registration order, every vertex-simple conversion chain of
length at most `fuel` starting at `current` whose intermediate vertices
avoid `visited`, paired with its end vertex.  The zero-length chain is
always included (a node type may implement the operation directly). -/
def simplePaths (cs : List Converter) :
    Nat → List Nat → Nat → List (List Converter × Nat)
  | 0, _, current => [([], current)]
  | fuel + 1, visited, current =>
    ([], current) ::
      (cs.filter (fun c =>
          c.src == current && !(visited.contains c.dst) && c.dst != current)).flatMap
        (fun c =>
          (simplePaths cs fuel (current :: visited) c.dst).map
            (fun pe => (c :: pe.1, pe.2)))

/-- Modelled from the spec (part of the path resolver): select the
lowest-cost candidate, preferring the earliest-enumerated on ties
(deterministic tie-break by registration order). -/
def pickMin : List (List Converter × Nat) → Option (List Converter × Nat)
  | [] => none
  | pe :: rest =>
    match pickMin rest with
    | none => some pe
    | some b => if pathCost b.1 < pathCost pe.1 then some b else some pe

/-- Modelled from the spec: `find(node_type, operation_name)` — the
registry's resolver.  Among all simple conversion chains from `t` (whose
length never needs to exceed the number of registered converters) ending
at a node type that implements `op`, return the one of lowest total cost
together with its end type, or `none` when no implementing type is
reachable (`OperationNotFoundError`). -/
def Registry.find_operation (r : Registry) (t : Nat) (op : String) :
    Option (List Converter × Nat) :=
  pickMin ((simplePaths r.converters r.converters.length [] t).filter
    (fun pe => decide ((pe.2, op) ∈ r.operations)))

/-- A concrete registry used to witness the resolver theorems: node type
`2` implements `"x"`; edges `0 → 1` (cost 1), `1 → 2` (cost 1) and a
direct `0 → 2` (cost 5), so the cheapest route from `0` is the two-hop
chain of cost 2. -/
def exampleRegistry : Registry :=
  { operations := [(2, "x")],
    converters :=
      [⟨0, 0, 1, 1⟩, ⟨1, 1, 2, 1⟩, ⟨2, 0, 2, 5⟩] }

/-- A concrete resolution used to witness the save dispatcher: operation
`7` adds its argument to the handle, reached through converter `3`. -/
def exampleResolution : Resolution Nat Nat Nat :=
  { opId := 7,
    operation := fun image args => image + args,
    conversion_path := [((3, fun image => image + 10), some 1)] }

/-! ## Lemmas about chains and the resolver -/

@[simp] theorem isChain_nil {cs : List Converter} {t e : Nat} :
    isChain cs t [] e ↔ t = e := Iff.rfl

@[simp] theorem isChain_cons {cs : List Converter} {t e : Nat} {c : Converter}
    {q : List Converter} :
    isChain cs t (c :: q) e ↔ c ∈ cs ∧ c.src = t ∧ isChain cs c.dst q e := Iff.rfl

@[simp] theorem pathCost_nil : pathCost [] = 0 := rfl

@[simp] theorem pathCost_cons (c : Converter) (q : List Converter) :
    pathCost (c :: q) = c.cost + pathCost q := by
  simp [pathCost]

theorem pathCost_append (q₁ q₂ : List Converter) :
    pathCost (q₁ ++ q₂) = pathCost q₁ + pathCost q₂ := by
  simp [pathCost]

theorem isChain_append {cs : List Converter} {q₁ q₂ : List Converter} {t e : Nat}
    (h : isChain cs t (q₁ ++ q₂) e) :
    ∃ m, isChain cs t q₁ m ∧ isChain cs m q₂ e := by
  induction q₁ generalizing t with
  | nil => exact ⟨t, rfl, h⟩
  | cons c q ih =>
    obtain ⟨h1, h2, h3⟩ := h
    obtain ⟨m, hm1, hm2⟩ := ih h3
    exact ⟨m, ⟨h1, h2, hm1⟩, hm2⟩

theorem isChain_mem_converters {cs : List Converter} {q : List Converter} {t e : Nat}
    (h : isChain cs t q e) : ∀ c ∈ q, c ∈ cs := by
  induction q generalizing t with
  | nil => intro c hc; cases hc
  | cons c q ih =>
    obtain ⟨h1, _, h3⟩ := h
    intro d hd
    rcases List.mem_cons.mp hd with rfl | hd
    · exact h1
    · exact ih h3 d hd

theorem pickMin_eq_none {l : List (List Converter × Nat)}
    (h : pickMin l = none) : l = [] := by
  cases l with
  | nil => rfl
  | cons pe rest =>
    simp only [pickMin] at h
    split at h
    · exact Option.noConfusion h
    · split at h <;> exact Option.noConfusion h

theorem pickMin_mem {l : List (List Converter × Nat)} :
    ∀ {pe : List Converter × Nat}, pickMin l = some pe → pe ∈ l := by
  induction l with
  | nil => intro pe h; simp [pickMin] at h
  | cons pe₀ rest ih =>
    intro pe h
    simp only [pickMin] at h
    split at h
    · obtain rfl := Option.some.inj h
      exact List.mem_cons_self _ _
    · rename_i b hrest
      split at h
      · obtain rfl := Option.some.inj h
        exact List.mem_cons_of_mem _ (ih hrest)
      · obtain rfl := Option.some.inj h
        exact List.mem_cons_self _ _

theorem pickMin_le {l : List (List Converter × Nat)} :
    ∀ {pe : List Converter × Nat}, pickMin l = some pe →
      ∀ q ∈ l, pathCost pe.1 ≤ pathCost q.1 := by
  induction l with
  | nil => intro pe h; simp [pickMin] at h
  | cons pe₀ rest ih =>
    intro pe h q hq
    simp only [pickMin] at h
    split at h
    · rename_i hrest
      obtain rfl := pickMin_eq_none hrest
      obtain rfl := Option.some.inj h
      rcases List.mem_cons.mp hq with rfl | hq
      · exact le_refl _
      · cases hq
    · rename_i b hrest
      have hb := ih hrest
      split at h
      · rename_i hlt
        obtain rfl := Option.some.inj h
        rcases List.mem_cons.mp hq with rfl | hq
        · exact le_of_lt hlt
        · exact hb q hq
      · rename_i hnlt
        obtain rfl := Option.some.inj h
        rcases List.mem_cons.mp hq with rfl | hq
        · exact le_refl _
        · exact le_trans (le_of_not_lt hnlt) (hb q hq)

theorem simplePaths_sound {cs : List Converter} :
    ∀ (fuel : Nat) (visited : List Nat) (current : Nat) (pe : List Converter × Nat),
      pe ∈ simplePaths cs fuel visited current → isChain cs current pe.1 pe.2 := by
  intro fuel
  induction fuel with
  | zero =>
    intro visited current pe h
    simp only [simplePaths, List.mem_singleton] at h
    subst h
    exact rfl
  | succ f ih =>
    intro visited current pe h
    simp only [simplePaths, List.mem_cons, List.mem_flatMap, List.mem_map,
      List.mem_filter] at h
    rcases h with rfl | ⟨c, ⟨hc_cs, hcond⟩, qe, hqe, rfl⟩
    · exact rfl
    · simp only [Bool.and_eq_true, beq_iff_eq, bne_iff_ne, Bool.not_eq_true',
        ne_eq] at hcond
      exact ⟨hc_cs, hcond.1.1, ih _ _ qe hqe⟩

theorem simplePaths_complete {cs : List Converter} :
    ∀ (q : List Converter) (fuel : Nat) (visited : List Nat) (current e : Nat),
      isChain cs current q e →
      (current :: q.map (·.dst)).Nodup →
      (∀ d ∈ q.map (·.dst), d ∉ visited) →
      q.length ≤ fuel →
      (q, e) ∈ simplePaths cs fuel visited current := by
  intro q
  induction q with
  | nil =>
    intro fuel visited current e hch _ _ _
    obtain rfl : current = e := hch
    cases fuel <;> simp [simplePaths]
  | cons c p ih =>
    intro fuel visited current e hch hnd hvis hlen
    obtain ⟨hc_cs, hsrc, hchp⟩ := hch
    cases fuel with
    | zero => simp at hlen
    | succ f =>
      have hdst_mem : c.dst ∈ (c :: p).map (·.dst) := by simp
      have hcur_notin : current ∉ (c :: p).map (·.dst) :=
        (List.nodup_cons.mp hnd).1
      simp only [simplePaths, List.mem_cons]
      right
      rw [List.mem_flatMap]
      refine ⟨c, ?_, ?_⟩
      · rw [List.mem_filter]
        refine ⟨hc_cs, ?_⟩
        simp only [Bool.and_eq_true, beq_iff_eq, bne_iff_ne, Bool.not_eq_true',
          ne_eq]
        refine ⟨⟨hsrc, ?_⟩, ?_⟩
        · simpa using hvis c.dst hdst_mem
        · intro hcd
          exact hcur_notin (hcd ▸ hdst_mem)
      · rw [List.mem_map]
        refine ⟨(p, e), ?_, rfl⟩
        have hnd' : (c.dst :: p.map (·.dst)).Nodup := by
          have := (List.nodup_cons.mp hnd).2
          simpa using this
        refine ih f (current :: visited) c.dst e hchp hnd' ?_ ?_
        · intro d hd
          simp only [List.mem_cons]
          push_neg
          constructor
          · intro hdc
            exact hcur_notin (by simp [hdc ▸ hd])
          · exact hvis d (by simp [hd])
        · simpa using hlen

theorem chain_simplify {cs : List Converter} :
    ∀ (n : Nat) (q : List Converter) (t e : Nat),
      q.length ≤ n → isChain cs t q e →
      ∃ q', isChain cs t q' e ∧ (t :: q'.map (·.dst)).Nodup ∧
        (∀ d ∈ q'.map (·.dst), d ∈ q.map (·.dst)) ∧
        pathCost q' ≤ pathCost q ∧ q'.length ≤ q.length := by
  intro n
  induction n with
  | zero =>
    intro q t e hlen hch
    obtain rfl : q = [] := List.length_eq_zero.mp (Nat.le_zero.mp hlen)
    exact ⟨[], hch, by simp, by simp, le_refl _, le_refl _⟩
  | succ n ih =>
    intro q t e hlen hch
    by_cases ht : t ∈ q.map (·.dst)
    · obtain ⟨c, hcq, hcdst⟩ := List.mem_map.mp ht
      obtain ⟨s, u, rfl⟩ := List.append_of_mem hcq
      obtain ⟨m, _, hcu⟩ := isChain_append hch
      obtain ⟨_, _, hu⟩ := hcu
      rw [hcdst] at hu
      have hulen : u.length ≤ n := by
        have := hlen
        simp only [List.length_append, List.length_cons] at this
        omega
      obtain ⟨q', h1, h2, h3, h4, h5⟩ := ih u t e hulen hu
      refine ⟨q', h1, h2, ?_, ?_, ?_⟩
      · intro d hd
        have : d ∈ u.map (·.dst) := h3 d hd
        simp only [List.map_append, List.map_cons, List.mem_append, List.mem_cons]
        right; right; exact this
      · calc pathCost q' ≤ pathCost u := h4
          _ ≤ pathCost (s ++ c :: u) := by
            rw [pathCost_append, pathCost_cons]; omega
      · calc q'.length ≤ u.length := h5
          _ ≤ (s ++ c :: u).length := by simp; omega
    · cases q with
      | nil => exact ⟨[], hch, by simp, by simp, le_refl _, le_refl _⟩
      | cons c p =>
        obtain ⟨hc_cs, hsrc, hchp⟩ := hch
        have hplen : p.length ≤ n := by simpa using hlen
        obtain ⟨p', h1, h2, h3, h4, h5⟩ := ih p c.dst e hplen hchp
        have ht' : t ≠ c.dst ∧ t ∉ p.map (·.dst) := by
          simp only [List.map_cons, List.mem_cons] at ht
          push_neg at ht
          exact ht
        refine ⟨c :: p', ⟨hc_cs, hsrc, h1⟩, ?_, ?_, ?_, ?_⟩
        · rw [List.map_cons, List.nodup_cons]
          refine ⟨?_, h2⟩
          simp only [List.mem_cons]
          push_neg
          exact ⟨ht'.1, fun hmem => ht'.2 (h3 t hmem)⟩
        · intro d hd
          simp only [List.map_cons, List.mem_cons] at hd ⊢
          rcases hd with rfl | hd
          · left; rfl
          · right; exact h3 d hd
        · rw [pathCost_cons, pathCost_cons]
          omega
        · simp only [List.length_cons]
          omega

theorem simple_chain_length_le {cs : List Converter} {q : List Converter} {t e : Nat}
    (hch : isChain cs t q e) (hnd : (t :: q.map (·.dst)).Nodup) :
    q.length ≤ cs.length := by
  have hq : q.Nodup := List.Nodup.of_map _ (List.nodup_cons.mp hnd).2
  have hsub : q ⊆ cs := fun c hc => isChain_mem_converters hch c hc
  exact (List.subperm_of_subset hq hsub).length_le

/-- C1: for every node type and operation name such that some type
implementing the operation is reachable through registered converters, the
registry's find operation returns a conversion path of lowest total cost
from the node type to a type implementing the operation — no alternate
combination of registered converters reaches an implementing type more
cheaply — and repeated identical queries return the same path (hence the
same cost). -/
theorem find_operation_optimal (r : Registry) (t : Nat) (op : String)
    (h : ∃ q e, isChain r.converters t q e ∧ (e, op) ∈ r.operations) :
    ∃ p e, r.find_operation t op = some (p, e) ∧
      isChain r.converters t p e ∧ (e, op) ∈ r.operations ∧
      (∀ q e', isChain r.converters t q e' → (e', op) ∈ r.operations →
        pathCost p ≤ pathCost q) ∧
      ∀ p₂ e₂, r.find_operation t op = some (p₂, e₂) → p₂ = p ∧ e₂ = e := by
  obtain ⟨q, e₀, hq, he₀⟩ := h
  obtain ⟨q', hch', hnd', _, _, _⟩ := chain_simplify q.length q t e₀ (le_refl _) hq
  have hmem : (q', e₀) ∈ simplePaths r.converters r.converters.length [] t :=
    simplePaths_complete q' r.converters.length [] t e₀ hch' hnd' (by simp)
      (simple_chain_length_le hch' hnd')
  have hcand : (q', e₀) ∈ (simplePaths r.converters r.converters.length [] t).filter
      (fun pe => decide ((pe.2, op) ∈ r.operations)) :=
    List.mem_filter.mpr ⟨hmem, by simpa using he₀⟩
  cases hfind : r.find_operation t op with
  | none =>
    have hnil : (q', e₀) ∈ ([] : List (List Converter × Nat)) :=
      pickMin_eq_none hfind ▸ hcand
    cases hnil
  | some pe =>
    have hpe := List.mem_filter.mp (pickMin_mem hfind)
    refine ⟨pe.1, pe.2, rfl, simplePaths_sound _ _ _ _ hpe.1, ?_, ?_, ?_⟩
    · simpa using hpe.2
    · intro q₁ e' hq₁ himpl
      obtain ⟨q₁', h1, h2, _, h4, _⟩ := chain_simplify q₁.length q₁ t e' (le_refl _) hq₁
      have hm : (q₁', e') ∈ simplePaths r.converters r.converters.length [] t :=
        simplePaths_complete q₁' r.converters.length [] t e' h1 h2 (by simp)
          (simple_chain_length_le h1 h2)
      have hc : (q₁', e') ∈ (simplePaths r.converters r.converters.length [] t).filter
          (fun pe => decide ((pe.2, op) ∈ r.operations)) :=
        List.mem_filter.mpr ⟨hm, by simpa using himpl⟩
      exact le_trans (pickMin_le hfind (q₁', e') hc) h4
    · intro p₂ e₂ h₂
      obtain rfl : pe = (p₂, e₂) := Option.some.inj h₂
      exact ⟨rfl, rfl⟩

/-- Witness for C1: on the concrete example registry, type `2` implements
`"x"` and is reachable from `0` (e.g. via the two-hop chain), so the
resolver returns an optimal path. -/
theorem find_operation_optimal_witness :
    ∃ p e, exampleRegistry.find_operation 0 "x" = some (p, e) ∧
      isChain exampleRegistry.converters 0 p e ∧
      (e, "x") ∈ exampleRegistry.operations ∧
      (∀ q e', isChain exampleRegistry.converters 0 q e' →
        (e', "x") ∈ exampleRegistry.operations → pathCost p ≤ pathCost q) ∧
      ∀ p₂ e₂, exampleRegistry.find_operation 0 "x" = some (p₂, e₂) →
        p₂ = p ∧ e₂ = e :=
  find_operation_optimal exampleRegistry 0 "x"
    ⟨[⟨0, 0, 1, 1⟩, ⟨1, 1, 2, 1⟩], 2, by decide, by decide⟩

/-! ## Lemmas about the dispatch façade -/

theorem run_conversion_path_eq {H : Type}
    (path : List ((Nat × (H → H)) × Option Nat)) (image : H) :
    run_conversion_path path image =
      (path.foldl (fun im c => c.1.2 im) image, path.map (fun c => c.1.1)) := by
  induction path generalizing image with
  | nil => rfl
  | cons c rest ih =>
    obtain ⟨cv, co⟩ := c
    simp [run_conversion_path, ih]

/-- C2: when resolution of a capability succeeds with a conversion path and
terminal operation, invoking the capability executes each converter edge of
the path in order — the final handle is the left fold of the converter
functions over the original handle, and the converter trace lists the
path's converter identifiers in path order — then applies the terminal
operation to the final handle together with the caller-supplied arguments
and returns that operation's result unmodified, the operation being
invoked exactly once. -/
theorem getattr_executes_path {H A R : Type} (res : Resolution H A R)
    (clsName attr : String) (self : H) (args : A) :
    getattrInvoke (some res) clsName attr self args =
      (.ok (res.operation
        (res.conversion_path.foldl (fun image c => c.1.2 image) self) args),
       res.conversion_path.map (fun c => c.1.1),
       [(res.opId, args)]) := by
  simp [getattrInvoke, run_conversion_path_eq]

/-- C3: when the registry's path resolution fails (`find_operation` raises
`LookupError`), the capability request fails with `AttributeError` — no
default is returned — and no converter and no operation executes: both
traces are empty and the handle is untouched (the dispatch is pure in the
handle). -/
theorem getattr_failure_no_execution {H A R : Type}
    (clsName attr : String) (self : H) (args : A) :
    getattrInvoke (none : Option (Resolution H A R)) clsName attr self args =
      (.error (.attributeError clsName attr), [], []) := rfl

/-- C6: for every format-name string outside the closed supported set,
`Image.save` fails with `ValueError` and invokes no capability at all —
the converter trace and the operation-invocation trace are both empty, so
no `save_as_*` operation is dispatched. -/
theorem save_unknown_format {H A R : Type}
    (find : String → Option (Resolution H A R)) (clsName : String) (self : H)
    (image_format : String) (output : A)
    (h : image_format ∉ supported_save_formats) :
    Image.save find clsName self image_format output =
      (.error (.valueError ("Unknown image format: " ++ image_format)), [], []) := by
  simp [Image.save, h]

/-- Witness for C6: `save("foo", output)` fails with the format-validation
error and empty execution traces. -/
theorem save_unknown_format_witness :
    "foo" ∉ supported_save_formats ∧
    Image.save (fun _ => (none : Option (Resolution Nat Nat Nat))) "Image" 0 "foo" 1 =
      (.error (.valueError ("Unknown image format: " ++ "foo")), [], []) :=
  ⟨by decide,
   save_unknown_format (fun _ => (none : Option (Resolution Nat Nat Nat)))
     "Image" 0 "foo" 1 (by decide)⟩

/-- C7: for every format name in the supported set, `Image.save`
synthesises the operation name `"save_as_" ++ image_format` and requests
that capability through the same dispatch as any other capability request
(first conjunct); when that resolution succeeds, the capability is invoked
exactly once with `output` as its sole argument — the
operation-invocation trace is exactly `[(res.opId, output)]` — and its
result is returned. -/
theorem save_invokes_save_as {H A R : Type}
    (find : String → Option (Resolution H A R)) (clsName : String) (self : H)
    (image_format : String) (output : A) (res : Resolution H A R)
    (hfmt : image_format ∈ supported_save_formats)
    (hres : find ("save_as_" ++ image_format) = some res) :
    Image.save find clsName self image_format output =
      getattrInvoke (find ("save_as_" ++ image_format)) clsName
        ("save_as_" ++ image_format) self output ∧
    Image.save find clsName self image_format output =
      (.ok (res.operation
        (res.conversion_path.foldl (fun image c => c.1.2 image) self) output),
       res.conversion_path.map (fun c => c.1.1),
       [(res.opId, output)]) := by
  constructor
  · simp [Image.save, hfmt]
  · simp [Image.save, hfmt, hres, getattrInvoke, run_conversion_path_eq]

/-- Witness for C7: `save("jpeg", 5)` on handle `100` resolves
`"save_as_jpeg"` and invokes it exactly once with `5` as its argument. -/
theorem save_invokes_save_as_witness :
    "jpeg" ∈ supported_save_formats ∧
    (Image.save (fun s => if s = "save_as_" ++ "jpeg" then some exampleResolution else none)
        "Image" 100 "jpeg" 5 =
      getattrInvoke
        ((fun s => if s = "save_as_" ++ "jpeg" then some exampleResolution else none)
          ("save_as_" ++ "jpeg"))
        "Image" ("save_as_" ++ "jpeg") 100 5 ∧
    Image.save (fun s => if s = "save_as_" ++ "jpeg" then some exampleResolution else none)
        "Image" 100 "jpeg" 5 =
      (.ok (exampleResolution.operation
        (exampleResolution.conversion_path.foldl (fun image c => c.1.2 image) 100) 5),
       exampleResolution.conversion_path.map (fun c => c.1.1),
       [(exampleResolution.opId, 5)])) :=
  ⟨by decide,
   save_invokes_save_as
     (fun s => if s = "save_as_" ++ "jpeg" then some exampleResolution else none)
     "Image" 100 "jpeg" 5 exampleResolution (by decide) (by simp)⟩

/-- C4: `Image.open` raises `UnrecognisedImageFormatError` in exactly two
cases — when the sniffer recognises no signature (null format tag, message
`"Unknown image format"`) and when the sniffer returns a format tag with
no entry in the initial-class table (message `"Cannot load ..."`); in
every other case it returns an instance of the mapped initial class
constructed from the byte source. -/
theorem open_error_cases (guess : ByteSource → Option String) (f : ByteSource) :
    (guess f = none → Image.open guess f = .error .unknownFormat) ∧
    (∀ fmt, guess f = some fmt → lookupClass INITIAL_IMAGE_CLASSES fmt = none →
      Image.open guess f = .error (.cannotLoad fmt)) ∧
    (∀ fmt cls, guess f = some fmt → lookupClass INITIAL_IMAGE_CLASSES fmt = some cls →
      Image.open guess f = .ok ⟨cls, f⟩) := by
  refine ⟨?_, ?_, ?_⟩
  · intro h
    simp [Image.open, h]
  · intro fmt h hl
    simp [Image.open, h, hl]
  · intro fmt cls h hl
    simp [Image.open, h, hl]

/-- Witness for C4: the unknown-signature case on `"Not an image"`, the
recognised-but-unmapped case on a sniffer returning `"svg"`, and the
success case on a PNG signature. -/
theorem open_error_cases_witness :
    guess_extension notAnImage = none ∧
    Image.open guess_extension notAnImage = .error .unknownFormat ∧
    Image.open (fun _ => some "svg") notAnImage = .error (.cannotLoad "svg") ∧
    Image.open guess_extension pngSignature = .ok ⟨.PNGImageFile, pngSignature⟩ :=
  ⟨by decide,
   (open_error_cases guess_extension notAnImage).1 (by decide),
   (open_error_cases (fun _ => some "svg") notAnImage).2.1 "svg" rfl (by decide),
   (open_error_cases guess_extension pngSignature).2.2 "png" .PNGImageFile
     (by decide) (by decide)⟩

/-- C5: opening a byte source beginning with the PNG signature yields a
handle of the mapped initial class whose format tag is `"png"`; likewise
the JFIF JPEG signature yields `"jpeg"` and `GIF89a` yields `"gif"`; a
byte source whose leading bytes match no known signature (the bytes of
`"Not an image"`) makes `Image.open` raise
`UnrecognisedImageFormatError`. -/
theorem open_signature_cases (rest : ByteSource) :
    Image.open guess_extension (pngSignature ++ rest) =
      .ok ⟨.PNGImageFile, pngSignature ++ rest⟩ ∧
    (ImageFile.mk .PNGImageFile (pngSignature ++ rest)).format_name = some "png" ∧
    Image.open guess_extension (jpegSignature ++ rest) =
      .ok ⟨.JPEGImageFile, jpegSignature ++ rest⟩ ∧
    (ImageFile.mk .JPEGImageFile (jpegSignature ++ rest)).format_name = some "jpeg" ∧
    Image.open guess_extension (gifSignature ++ rest) =
      .ok ⟨.GIFImageFile, gifSignature ++ rest⟩ ∧
    (ImageFile.mk .GIFImageFile (gifSignature ++ rest)).format_name = some "gif" ∧
    Image.open guess_extension notAnImage = .error .unknownFormat :=
  ⟨rfl, rfl, rfl, rfl, rfl, rfl, rfl⟩

/-- C8: registered operations do not mutate the representation they are
applied to: `get_size` on a buffer constructed from `(size, data)` returns
exactly that size and leaves the handle unchanged, and `has_alpha` /
`has_animation` on the RGB and RGBA buffers leave all fields of the handle
unchanged. -/
theorem operations_preserve_representation (size : Nat × Nat) (data : List Nat) :
    (ImageBuffer.get_size ⟨size, data⟩).1 = size ∧
    (ImageBuffer.get_size ⟨size, data⟩).2 = ⟨size, data⟩ ∧
    (∀ b : RGBImageBuffer,
      b.get_size.2 = b ∧ b.has_alpha.2 = b ∧ b.has_animation.2 = b) ∧
    (∀ b : RGBAImageBuffer,
      b.get_size.2 = b ∧ b.has_alpha.2 = b ∧ b.has_animation.2 = b) :=
  ⟨rfl, rfl, fun _ => ⟨rfl, rfl, rfl⟩, fun _ => ⟨rfl, rfl, rfl⟩⟩

/-- C9: `has_alpha` returns `False` on every `RGBImageBuffer` and `True`
on every `RGBAImageBuffer`, and `has_animation` returns `False` on both,
regardless of the size and data the buffer was constructed with. -/
theorem has_alpha_has_animation_values
    (b : RGBImageBuffer) (b' : RGBAImageBuffer) :
    b.has_alpha.1 = false ∧ b'.has_alpha.1 = true ∧
    b.has_animation.1 = false ∧ b'.has_animation.1 = false :=
  ⟨rfl, rfl, rfl, rfl⟩

/-- C10: on every `ImageFile` instance (base class or any of the six
concrete subclasses), reading the deprecated `original_format` property
returns the same value as the `format_name` attribute, so the two
accessors are interchangeable. -/
theorem original_format_eq_format_name (img : ImageFile) :
    img.original_format.1 = img.format_name := rfl

end Willow
